import Mathlib

/-!
Verification of the rplidar streaming scripts.

This file gives a shallow embedding of the rate-decoupled scan-streaming
loop of `stream_scans.py` and of the sorted filtering of `log_lidar_pi.py`,
and proves (or refutes) the specified properties of the angle transformer,
the measurement filter, the scan buffer, the rate scheduler, the stream
loop, argument validation, shutdown handling, and the sorted-insert filter.

Numeric modelling: Python floats are modelled by exact rationals (`ℚ`);
Python's float `%` operator (sign of the divisor) is modelled by `pymod`
below.  The transcendental functions `cos`, `sin` and the constant `pi`
come from Python's `math` module; the embedding takes them as parameters
(`MathFns`), since the claims under study do not depend on their values.
-/

namespace StreamScans

/-- Python's `%` operator on floats, over exact rationals:
the result has the sign of the divisor, `x % y = x - y * floor (x / y)`. -/
def pymod (x y : ℚ) : ℚ := x - y * ⌊x / y⌋

theorem pymod_eq_fract (x y : ℚ) (hy : y ≠ 0) :
    pymod x y = y * Int.fract (x / y) := by
  unfold pymod Int.fract
  field_simp

theorem pymod_nonneg (x y : ℚ) (hy : 0 < y) : 0 ≤ pymod x y := by
  rw [pymod_eq_fract x y (ne_of_gt hy)]
  exact mul_nonneg (le_of_lt hy) (Int.fract_nonneg _)

theorem pymod_lt (x y : ℚ) (hy : 0 < y) : pymod x y < y := by
  rw [pymod_eq_fract x y (ne_of_gt hy)]
  calc y * Int.fract (x / y) < y * 1 :=
        (mul_lt_mul_left hy).mpr (Int.fract_lt_one _)
    _ = y := mul_one y

/-- The parameters of `stream_scans.py` (argparse namespace `args`):
`rate`, `number`, `min_angle`, `max_angle`, `min_distance`, `max_distance`,
`forward_angle`, `spin_reverse`. -/
structure Config where
  rate : ℚ
  number : ℤ
  minAngle : ℚ
  maxAngle : ℚ
  minDistance : ℚ
  maxDistance : ℚ
  forwardAngle : ℚ
  spinReverse : Bool
deriving DecidableEq

/-- The functions imported from Python's `math` module, taken as parameters
of the embedding (their exact float values are irrelevant to the claims). -/
structure MathFns where
  cos : ℚ → ℚ
  sin : ℚ → ℚ
  pi : ℚ

/-- `stream_scans.py` lines 96-100: if `spin_reverse`,
`angle = (360.0 - (angle % 360.0)) % 360.0`; then
`angle = (angle - args.forward_angle + 360.0) % 360.0`. -/
def transformAngle (cfg : Config) (angle : ℚ) : ℚ :=
  let a1 := if cfg.spinReverse then pymod (360 - pymod angle 360) 360 else angle
  pymod (a1 - cfg.forwardAngle + 360) 360

/-- C4: For every finite raw angle, every spin_reverse flag, and every
forward_angle in [0, 360], the angle transformation produces a normalized
angle satisfying 0 <= angle < 360. -/
theorem transformAngle_mem_Ico (cfg : Config) (angle : ℚ)
    (hf0 : 0 ≤ cfg.forwardAngle) (hf360 : cfg.forwardAngle ≤ 360) :
    0 ≤ transformAngle cfg angle ∧ transformAngle cfg angle < 360 := by
  unfold transformAngle
  exact ⟨pymod_nonneg _ _ (by norm_num), pymod_lt _ _ (by norm_num)⟩

/-- Witness for C4 at a concrete configuration and raw angle. -/
theorem transformAngle_mem_Ico_witness :
    (0 : ℚ) ≤ (90 : ℚ) ∧ (90 : ℚ) ≤ 360 ∧
      0 ≤ transformAngle ⟨20, 40, 0, 360, 0, 1000, 90, true⟩ (-725) ∧
      transformAngle ⟨20, 40, 0, 360, 0, 1000, 90, true⟩ (-725) < 360 := by
  refine ⟨by norm_num, by norm_num, ?_⟩
  exact transformAngle_mem_Ico ⟨20, 40, 0, 360, 0, 1000, 90, true⟩ (-725)
    (by norm_num) (by norm_num)

/-- A measurement record as built at `stream_scans.py` lines 110-119, with
keys `scan`, `index`, `overall`, `time`, `distance`, `angle`, `x`, `y`. -/
structure Measurement where
  scan : ℕ
  index : ℕ
  overall : ℕ
  time : ℚ
  distance : ℚ
  angle : ℚ
  x : ℚ
  y : ℚ
deriving DecidableEq

/-- One element of `lidar.iter_measurements()` together with the value
`time.time()` would return during that loop iteration (line 102). -/
structure RawSample where
  newScan : Bool
  quality : ℚ
  angle : ℚ
  distance : ℚ
  now : ℚ
deriving DecidableEq

/-- The mutable state of the streaming loop of `stream_scans.py`
(lines 76-83), plus:
`output` — the sequence of snapshots printed so far (line 134);
`stopped` — whether the `break` at line 93 has run;
`frozenCount`, `capAtBoundary` — ghost (history) variables recording the
value assigned to `measurement_count` and the buffer length at the most
recent rotation boundary; they are written only at boundaries and never
read by the code. -/
structure LoopState where
  buffer : List Measurement
  measurementCount : ℕ
  measurementIndex : ℕ
  scanTime : ℚ
  scanCount : ℕ
  overallIndex : ℕ
  fullScanCount : ℕ
  fullScanIndex : ℕ
  output : List (List Measurement)
  stopped : Bool
  frozenCount : ℕ
  capAtBoundary : ℕ
deriving DecidableEq

/-- The rotation-boundary handler, `stream_scans.py` lines 86-90:
`full_scan_count += 1; full_scan_index = 0;
measurement_count = measurement_index; measurement_index = 0`
(plus the ghost variables). -/
def applyBoundary (st : LoopState) : LoopState :=
  { st with
    fullScanCount := st.fullScanCount + 1
    fullScanIndex := 0
    measurementCount := st.measurementIndex
    measurementIndex := 0
    frozenCount := st.measurementIndex
    capAtBoundary := st.buffer.length }

/-- Whether a transformed angle/distance pair passes the window test of
`stream_scans.py` lines 103-104. -/
def inWindow (cfg : Config) (a d : ℚ) : Prop :=
  a ≥ cfg.minAngle ∧ a ≤ cfg.maxAngle ∧ d ≥ cfg.minDistance ∧ d ≤ cfg.maxDistance

instance (cfg : Config) (a d : ℚ) : Decidable (inWindow cfg a d) := by
  unfold inWindow; infer_instance

/-- The measurement dict built at `stream_scans.py` lines 106-119 for a
transformed angle `a`, raw distance `d` and clock reading `now`. -/
def mkMeasurement (fns : MathFns) (st : LoopState) (a d now : ℚ) : Measurement :=
  let radians := a * fns.pi / 180
  { scan := st.fullScanCount
    index := st.fullScanIndex
    overall := st.overallIndex
    time := now
    distance := d
    angle := a
    x := d * fns.cos radians
    y := d * fns.sin radians }

/-- The transform/filter/write part of the loop body,
`stream_scans.py` lines 96-128: normalize the angle, test the window,
and on admission build the measurement, store it in the buffer
(overwrite in place, or append and bump `measurement_count`), and advance
`measurement_index`, `full_scan_index` and `overall_index`. -/
def processMeasurement (cfg : Config) (fns : MathFns) (st : LoopState)
    (inp : RawSample) : LoopState :=
  let a := transformAngle cfg inp.angle
  if inWindow cfg a inp.distance then
    let m := mkMeasurement fns st a inp.distance inp.now
    let st1 :=
      if st.measurementIndex ≥ st.buffer.length then
        { st with buffer := st.buffer ++ [m]
                  measurementCount := st.measurementIndex + 1 }
      else
        { st with buffer := st.buffer.set st.measurementIndex m }
    { st1 with measurementIndex := st1.measurementIndex + 1
               fullScanIndex := st1.fullScanIndex + 1
               overallIndex := st1.overallIndex + 1 }
  else st

/-- The snapshot printed at `stream_scans.py` line 134:
`measurement_buffer[:measurement_count]`. -/
def snapshot (st : LoopState) : List Measurement :=
  st.buffer.take st.measurementCount

/-- The scheduler check of `stream_scans.py` lines 130-134:
if `now >= scan_time`, bump `scan_count`, set `scan_time = now + 1/rate`,
and print the snapshot. -/
def checkSchedule (cfg : Config) (st : LoopState) (now : ℚ) : LoopState :=
  if now ≥ st.scanTime then
    { st with scanCount := st.scanCount + 1
              scanTime := now + 1 / cfg.rate
              output := st.output ++ [snapshot st] }
  else st

/-- One iteration of the `for` loop of `stream_scans.py` lines 84-134.
A state with `stopped = true` models that the `break` at line 93 has exited
the loop, so later samples leave the state unchanged. -/
def step (cfg : Config) (fns : MathFns) (st : LoopState) (inp : RawSample) :
    LoopState :=
  if st.stopped then st
  else
    let st1 := if inp.newScan then applyBoundary st else st
    if (st1.scanCount : ℤ) > cfg.number then { st1 with stopped := true }
    else
      let st2 := processMeasurement cfg fns st1 inp
      checkSchedule cfg st2 inp.now

/-- The loop state at `stream_scans.py` lines 76-83, just before the `for`
loop, where `now0` is the value of `time.time()` at line 79. -/
def initState (cfg : Config) (now0 : ℚ) : LoopState :=
  { buffer := []
    measurementCount := 0
    measurementIndex := 0
    scanTime := now0 + 1 / cfg.rate
    scanCount := 0
    overallIndex := 0
    fullScanCount := 0
    fullScanIndex := 0
    output := []
    stopped := false
    frozenCount := 0
    capAtBoundary := 0 }

/-- Running the loop on a finite prefix of the measurement stream. -/
def run (cfg : Config) (fns : MathFns) (now0 : ℚ)
    (inputs : List RawSample) : LoopState :=
  inputs.foldl (step cfg fns) (initState cfg now0)

/-- C6: every rotation-boundary event freezes `measurement_count` to the
current `write_index` and resets `write_index` to 0; a boundary arriving
before any write leaves `measurement_count = 0`. -/
theorem applyBoundary_freezes (st : LoopState) :
    (applyBoundary st).measurementCount = st.measurementIndex ∧
      (applyBoundary st).measurementIndex = 0 ∧
      (st.measurementIndex = 0 → (applyBoundary st).measurementCount = 0) := by
  refine ⟨rfl, rfl, fun h => ?_⟩
  simp [applyBoundary, h]

/-- Witness for C6: the first boundary on the initial state leaves
`measurement_count = 0`. -/
theorem applyBoundary_freezes_witness :
    (applyBoundary (initState ⟨20, 40, 0, 360, 0, 1000, 0, false⟩ 0)).measurementCount = 0 ∧
      (applyBoundary (initState ⟨20, 40, 0, 360, 0, 1000, 0, false⟩ 0)).measurementIndex = 0 := by
  have h := applyBoundary_freezes (initState ⟨20, 40, 0, 360, 0, 1000, 0, false⟩ 0)
  exact ⟨h.2.2 rfl, h.2.1⟩

/-- C5: a transformed sample is written to the buffer iff it passes the
angle/distance window; the admitted measurement is stored with
`x = d·cos(a·π/180)` and `y = d·sin(a·π/180)` and the write cursor
advances; a rejected sample changes nothing.  The hypothesis
`measurement_index ≤ length` holds in every reachable state (it is part of
the loop invariant proved below). -/
theorem processMeasurement_spec (cfg : Config) (fns : MathFns)
    (st : LoopState) (inp : RawSample) (a : ℚ)
    (ha : a = transformAngle cfg inp.angle)
    (hle : st.measurementIndex ≤ st.buffer.length) :
    (inWindow cfg a inp.distance →
        (processMeasurement cfg fns st inp).buffer[st.measurementIndex]? =
          some ⟨st.fullScanCount, st.fullScanIndex, st.overallIndex, inp.now,
                inp.distance, a,
                inp.distance * fns.cos (a * fns.pi / 180),
                inp.distance * fns.sin (a * fns.pi / 180)⟩ ∧
        (processMeasurement cfg fns st inp).measurementIndex =
          st.measurementIndex + 1) ∧
    (¬ inWindow cfg a inp.distance → processMeasurement cfg fns st inp = st) := by
  subst ha
  unfold processMeasurement
  constructor
  · intro hw
    rw [if_pos hw]
    by_cases hge : st.measurementIndex ≥ st.buffer.length
    · have hlen : st.measurementIndex = st.buffer.length := le_antisymm hle hge
      simp only [if_pos hge, mkMeasurement]
      refine ⟨?_, trivial⟩
      simp only [hlen]
      exact List.getElem?_concat_length _ _
    · have hlt : st.measurementIndex < st.buffer.length := lt_of_not_ge hge
      simp only [if_neg hge, mkMeasurement]
      exact ⟨List.getElem?_set_eq_of_lt _ hlt, trivial⟩
  · intro hw
    rw [if_neg hw]

/-- Witness for C5: a concrete admitted sample is stored with the Cartesian
projection, and a concrete rejected sample leaves the state unchanged. -/
theorem processMeasurement_spec_witness :
    ((5 : ℚ) = transformAngle ⟨20, 40, 0, 360, 0, 1000, 0, false⟩ 5) ∧
      (initState ⟨20, 40, 0, 360, 0, 1000, 0, false⟩ 0).measurementIndex ≤
        (initState ⟨20, 40, 0, 360, 0, 1000, 0, false⟩ 0).buffer.length ∧
      inWindow ⟨20, 40, 0, 360, 0, 1000, 0, false⟩ 5 100 ∧
      (processMeasurement ⟨20, 40, 0, 360, 0, 1000, 0, false⟩ ⟨fun _ => 1, fun _ => 0, 3⟩
          (initState ⟨20, 40, 0, 360, 0, 1000, 0, false⟩ 0)
          ⟨false, 15, 5, 100, 0⟩).buffer[(0 : ℕ)]? =
        some ⟨0, 0, 0, 0, 100, 5, 100 * 1, 100 * 0⟩ := by
  have ha : (5 : ℚ) = transformAngle ⟨20, 40, 0, 360, 0, 1000, 0, false⟩ 5 := by
    unfold transformAngle pymod
    norm_num
  have hw : inWindow ⟨20, 40, 0, 360, 0, 1000, 0, false⟩ 5 100 := by
    unfold inWindow
    norm_num
  have h := processMeasurement_spec ⟨20, 40, 0, 360, 0, 1000, 0, false⟩
    ⟨fun _ => 1, fun _ => 0, 3⟩ (initState ⟨20, 40, 0, 360, 0, 1000, 0, false⟩ 0)
    ⟨false, 15, 5, 100, 0⟩ 5 ha (by exact Nat.le_refl 0)
  exact ⟨ha, Nat.le_refl 0, hw, (h.1 hw).1⟩

/-- A generic invariant-preservation principle for `List.foldl`. -/
theorem foldl_invariant {σ ι : Type} (f : σ → ι → σ) (P : σ → Prop)
    (hstep : ∀ s i, P s → P (f s i)) (init : σ) (hinit : P init)
    (l : List ι) : P (l.foldl f init) := by
  induction l generalizing init with
  | nil => exact hinit
  | cons x xs ih => exact ih _ (hstep _ _ hinit)

/-- The scan-buffer invariant of the streaming loop:
the buffer length is the larger of the capacity at the last boundary and
the write cursor; `measurement_count` equals the write cursor once it has
outgrown that capacity and the frozen count otherwise; `full_scan_index`
tracks `measurement_index`; every buffer slot (and every slot of every
emitted snapshot) holds a measurement whose `index` field is its position. -/
def BufInv (st : LoopState) : Prop :=
  st.buffer.length = max st.capAtBoundary st.measurementIndex ∧
  st.frozenCount ≤ st.capAtBoundary ∧
  st.measurementCount =
    (if st.capAtBoundary < st.measurementIndex then st.measurementIndex
     else st.frozenCount) ∧
  st.fullScanIndex = st.measurementIndex ∧
  (∀ k (hk : k < st.buffer.length), (st.buffer[k]).index = k) ∧
  (∀ s ∈ st.output, ∀ k (hk : k < s.length), (s[k]).index = k)

theorem bufInv_initState (cfg : Config) (now0 : ℚ) :
    BufInv (initState cfg now0) := by
  unfold BufInv initState
  refine ⟨rfl, le_refl _, rfl, rfl, ?_, ?_⟩
  · intro k hk
    simp at hk
  · intro s hs
    simp at hs

theorem bufInv_applyBoundary (st : LoopState) (h : BufInv st) :
    BufInv (applyBoundary st) := by
  obtain ⟨h1, h2, h3, h4, h5, h6⟩ := h
  unfold BufInv applyBoundary
  dsimp only
  refine ⟨by omega, by omega, by simp, rfl, h5, h6⟩

theorem bufInv_processMeasurement (cfg : Config) (fns : MathFns)
    (st : LoopState) (inp : RawSample) (h : BufInv st) :
    BufInv (processMeasurement cfg fns st inp) := by
  obtain ⟨h1, h2, h3, h4, h5, h6⟩ := h
  unfold processMeasurement
  by_cases hw : inWindow cfg (transformAngle cfg inp.angle) inp.distance
  · by_cases hge : st.measurementIndex ≥ st.buffer.length
    · have hidx : st.measurementIndex = st.buffer.length := by omega
      have hcap : st.capAtBoundary ≤ st.measurementIndex := by omega
      simp only [if_pos hw, if_pos hge, mkMeasurement]
      unfold BufInv
      dsimp only
      refine ⟨by simp; omega, h2, by rw [if_pos (by omega)], by omega, ?_, h6⟩
      intro k hk
      simp only [List.length_append, List.length_cons, List.length_nil] at hk
      by_cases hkl : k < st.buffer.length
      · rw [List.getElem_append_left hkl]
        exact h5 k hkl
      · have hkeq : k = st.buffer.length := by omega
        rw [List.getElem_concat_length st.buffer _ k hkeq]
        dsimp only
        omega
    · have hlt : st.measurementIndex < st.buffer.length := by omega
      have hcap : st.capAtBoundary = st.buffer.length := by omega
      simp only [if_pos hw, if_neg hge, mkMeasurement]
      unfold BufInv
      dsimp only
      refine ⟨by simp; omega, h2, ?_, by omega, ?_, h6⟩
      · rw [if_neg (by omega)]
        rw [h3, if_neg (by omega)]
      · intro k hk
        simp only [List.length_set] at hk
        by_cases hkeq : st.measurementIndex = k
        · subst hkeq
          rw [List.getElem_set_self (by simpa using hlt)]
          dsimp only
          omega
        · rw [List.getElem_set_ne hkeq (by simpa using hk)]
          exact h5 k hk
  · simp only [if_neg hw]
    exact ⟨h1, h2, h3, h4, h5, h6⟩

theorem bufInv_checkSchedule (cfg : Config) (st : LoopState) (now : ℚ)
    (h : BufInv st) : BufInv (checkSchedule cfg st now) := by
  obtain ⟨h1, h2, h3, h4, h5, h6⟩ := h
  unfold checkSchedule
  by_cases hn : now ≥ st.scanTime
  · rw [if_pos hn]
    refine ⟨h1, h2, h3, h4, h5, ?_⟩
    intro s hs k hk
    rcases List.mem_append.mp hs with hmem | hmem
    · exact h6 s hmem k hk
    · have hsnap : s = snapshot st := List.mem_singleton.mp hmem
      subst hsnap
      unfold snapshot at hk ⊢
      have hklen : k < st.buffer.length := by
        simp only [List.length_take] at hk
        omega
      rw [List.getElem_take st.buffer]
      exact h5 k hklen
  · rw [if_neg hn]
    exact ⟨h1, h2, h3, h4, h5, h6⟩

theorem bufInv_step (cfg : Config) (fns : MathFns) (st : LoopState)
    (inp : RawSample) (h : BufInv st) : BufInv (step cfg fns st inp) := by
  unfold step
  by_cases hs : st.stopped = true
  · rw [if_pos hs]
    exact h
  · rw [if_neg hs]
    have hst1 : BufInv (if inp.newScan then applyBoundary st else st) := by
      split
      · exact bufInv_applyBoundary st h
      · exact h
    by_cases hc : ((if inp.newScan then applyBoundary st else st).scanCount : ℤ) > cfg.number
    · simp only [if_pos hc]
      obtain ⟨h1, h2, h3, h4, h5, h6⟩ := hst1
      exact ⟨h1, h2, h3, h4, h5, h6⟩
    · simp only [if_neg hc]
      exact bufInv_checkSchedule cfg _ inp.now
        (bufInv_processMeasurement cfg fns _ inp hst1)

/-- The scan-buffer invariant holds in every reachable state of the loop. -/
theorem bufInv_run (cfg : Config) (fns : MathFns) (now0 : ℚ)
    (inputs : List RawSample) : BufInv (run cfg fns now0 inputs) :=
  foldl_invariant (step cfg fns) BufInv
    (fun s i hp => bufInv_step cfg fns s i hp)
    (initState cfg now0) (bufInv_initState cfg now0) inputs

/-- The transform/filter/write stage touches neither the output, nor the
emission counter, nor the scheduler deadline, nor the stop flag. -/
theorem processMeasurement_frame (cfg : Config) (fns : MathFns)
    (st : LoopState) (inp : RawSample) :
    (processMeasurement cfg fns st inp).output = st.output ∧
      (processMeasurement cfg fns st inp).scanCount = st.scanCount ∧
      (processMeasurement cfg fns st inp).stopped = st.stopped ∧
      (processMeasurement cfg fns st inp).scanTime = st.scanTime := by
  unfold processMeasurement
  by_cases hw : inWindow cfg (transformAngle cfg inp.angle) inp.distance
  · by_cases hge : st.measurementIndex ≥ st.buffer.length
    · simp [if_pos hw, if_pos hge]
    · simp [if_pos hw, if_neg hge]
  · simp [if_neg hw]

/-- The emission-counting invariant: while the loop runs, the number of
emitted snapshots equals `scan_count` and is at most `number + 1`; once the
`break` has fired, exactly `number + 1` snapshots have been emitted. -/
def CountInv (n : ℤ) (st : LoopState) : Prop :=
  (st.stopped = false →
      (st.output.length : ℤ) = st.scanCount ∧ (st.scanCount : ℤ) ≤ n + 1) ∧
  (st.stopped = true → (st.output.length : ℤ) = n + 1)

theorem countInv_initState (cfg : Config) (now0 : ℚ) (hn : 0 ≤ cfg.number) :
    CountInv cfg.number (initState cfg now0) := by
  unfold CountInv initState
  refine ⟨fun _ => ⟨rfl, by push_cast; omega⟩, fun hfalse => ?_⟩
  simp at hfalse

theorem countInv_step (cfg : Config) (fns : MathFns) (st : LoopState)
    (inp : RawSample) (h : CountInv cfg.number st) :
    CountInv cfg.number (step cfg fns st inp) := by
  unfold step
  by_cases hs : st.stopped = true
  · rw [if_pos hs]
    exact h
  · rw [if_neg hs]
    have hsf : st.stopped = false := by
      revert hs
      cases st.stopped <;> simp
    obtain ⟨ha, _⟩ := h
    obtain ⟨hlen, hle⟩ := ha hsf
    set st1 := if inp.newScan then applyBoundary st else st with hst1
    have e1 : st1.output = st.output ∧ st1.scanCount = st.scanCount ∧
        st1.stopped = st.stopped := by
      rw [hst1]
      split
      · exact ⟨rfl, rfl, rfl⟩
      · exact ⟨rfl, rfl, rfl⟩
    by_cases hc : (st1.scanCount : ℤ) > cfg.number
    · simp only [if_pos hc]
      unfold CountInv
      dsimp only
      refine ⟨fun hfalse => by simp at hfalse, fun _ => ?_⟩
      rw [e1.2.1] at hc
      rw [e1.1]
      omega
    · simp only [if_neg hc]
      obtain ⟨e2o, e2c, e2s, e2t⟩ := processMeasurement_frame cfg fns st1 inp
      unfold checkSchedule
      by_cases hn : inp.now ≥ (processMeasurement cfg fns st1 inp).scanTime
      · rw [if_pos hn]
        unfold CountInv
        dsimp only
        rw [e2o, e2c, e2s, e1.1, e1.2.1, e1.2.2, hsf]
        rw [e1.2.1] at hc
        refine ⟨fun _ => ⟨?_, by omega⟩, fun hfalse => ?_⟩
        · simp only [List.length_append, List.length_cons, List.length_nil]
          push_cast
          omega
        · exact absurd hfalse (by simp)
      · rw [if_neg hn]
        unfold CountInv
        rw [e2o, e2c, e2s, e1.1, e1.2.1, e1.2.2, hsf]
        refine ⟨fun _ => ⟨hlen, hle⟩, fun hfalse => by simp at hfalse⟩

/-- C2 (amended): whenever the loop has stopped by itself (the `break` at
line 93 fired), exactly `number + 1` snapshots have been emitted — one more
than the requested count. -/
theorem run_stopped_emits_number_plus_one (cfg : Config) (fns : MathFns)
    (now0 : ℚ) (inputs : List RawSample) (hn : 1 ≤ cfg.number)
    (hstop : (run cfg fns now0 inputs).stopped = true) :
    ((run cfg fns now0 inputs).output.length : ℤ) = cfg.number + 1 := by
  have hinv : CountInv cfg.number (run cfg fns now0 inputs) :=
    foldl_invariant (step cfg fns) (CountInv cfg.number)
      (fun s i hp => countInv_step cfg fns s i hp)
      (initState cfg now0) (countInv_initState cfg now0 (by omega)) inputs
  exact hinv.2 hstop

/-- C3 (amended): in every reachable state, the snapshot length equals
`measurement_count`, which is `write_index` once the write cursor has
outgrown the buffer capacity frozen at the last rotation boundary and the
frozen count otherwise.  The claimed equality
`len(snapshot()) = max(frozen count, write_index)` holds exactly when the
capacity at the last boundary equals the frozen count (in particular right
after a boundary and while the buffer has never been longer than the last
completed rotation), but not in general. -/
theorem run_snapshot_length (cfg : Config) (fns : MathFns) (now0 : ℚ)
    (inputs : List RawSample) (st : LoopState)
    (hst : st = run cfg fns now0 inputs) :
    (snapshot st).length = st.measurementCount ∧
      st.measurementCount =
        (if st.capAtBoundary < st.measurementIndex then st.measurementIndex
         else st.frozenCount) ∧
      (st.capAtBoundary = st.frozenCount →
        (snapshot st).length = max st.frozenCount st.measurementIndex) := by
  subst hst
  obtain ⟨h1, h2, h3, _, _, _⟩ := bufInv_run cfg fns now0 inputs
  have hcle : (run cfg fns now0 inputs).measurementCount ≤
      (run cfg fns now0 inputs).buffer.length := by
    rw [h3]
    split <;> omega
  have hlen : (snapshot (run cfg fns now0 inputs)).length =
      (run cfg fns now0 inputs).measurementCount := by
    unfold snapshot
    simp only [List.length_take]
    omega
  refine ⟨hlen, h3, fun hcf => ?_⟩
  rw [hlen, h3]
  split <;> omega

/-- Witness for C3 (amended) at the initial (empty) reachable state. -/
theorem run_snapshot_length_witness :
    (snapshot (run ⟨20, 40, 0, 360, 0, 1000, 0, false⟩
        ⟨fun _ => 1, fun _ => 0, 3⟩ 0 [])).length =
      (run ⟨20, 40, 0, 360, 0, 1000, 0, false⟩
        ⟨fun _ => 1, fun _ => 0, 3⟩ 0 []).measurementCount :=
  (run_snapshot_length ⟨20, 40, 0, 360, 0, 1000, 0, false⟩
    ⟨fun _ => 1, fun _ => 0, 3⟩ 0 [] _ rfl).1

/-- C9: in every reachable state, `full_scan_index` equals
`measurement_index`, every buffer slot `i` holds a measurement whose
`index` field is `i`, and in every emitted snapshot the element at
position `k` carries index field `k`. -/
theorem run_index_equals_position (cfg : Config) (fns : MathFns) (now0 : ℚ)
    (inputs : List RawSample) (st : LoopState)
    (hst : st = run cfg fns now0 inputs) :
    st.fullScanIndex = st.measurementIndex ∧
      (∀ k (hk : k < st.buffer.length), (st.buffer[k]).index = k) ∧
      (∀ s ∈ st.output, ∀ k (hk : k < s.length), (s[k]).index = k) := by
  subst hst
  obtain ⟨_, _, _, h4, h5, h6⟩ := bufInv_run cfg fns now0 inputs
  exact ⟨h4, h5, h6⟩

/-- Witness for C9 at the initial (empty) reachable state. -/
theorem run_index_equals_position_witness :
    (run ⟨20, 40, 0, 360, 0, 1000, 0, false⟩
        ⟨fun _ => 1, fun _ => 0, 3⟩ 0 []).fullScanIndex =
      (run ⟨20, 40, 0, 360, 0, 1000, 0, false⟩
        ⟨fun _ => 1, fun _ => 0, 3⟩ 0 []).measurementIndex :=
  (run_index_equals_position ⟨20, 40, 0, 360, 0, 1000, 0, false⟩
    ⟨fun _ => 1, fun _ => 0, 3⟩ 0 [] _ rfl).1

/-- C1 (amended): at every poll of the loop at which a snapshot is emitted,
the new deadline is `now + interval` — computed from the current clock
reading, not advanced from the previous deadline. -/
theorem step_emission_deadline (cfg : Config) (fns : MathFns)
    (st : LoopState) (inp : RawSample)
    (hemit : (step cfg fns st inp).output.length = st.output.length + 1) :
    (step cfg fns st inp).scanTime = inp.now + 1 / cfg.rate := by
  unfold step at hemit ⊢
  by_cases hs : st.stopped = true
  · rw [if_pos hs] at hemit ⊢
    omega
  · rw [if_neg hs] at hemit ⊢
    set st1 := if inp.newScan then applyBoundary st else st with hst1
    have e1 : st1.output = st.output := by
      rw [hst1]
      split
      · rfl
      · rfl
    by_cases hc : (st1.scanCount : ℤ) > cfg.number
    · simp only [if_pos hc] at hemit ⊢
      rw [e1] at hemit
      omega
    · simp only [if_neg hc] at hemit ⊢
      obtain ⟨e2o, _, _, _⟩ := processMeasurement_frame cfg fns st1 inp
      unfold checkSchedule at hemit ⊢
      by_cases hn : inp.now ≥ (processMeasurement cfg fns st1 inp).scanTime
      · rw [if_pos hn]
      · rw [if_neg hn] at hemit
        rw [e2o, e1] at hemit
        omega

/-- Modelled from the spec (§4.4 RateScheduler, not present in the code):
the claimed "catch-up" deadline update, advancing the previous deadline by
repeated `+interval` until it exceeds `now` (the smallest
`deadline + k·interval > now` with `k ≥ 1`, for `now ≥ deadline`,
`interval > 0`). -/
def specNextDeadline (deadline interval now : ℚ) : ℚ :=
  deadline + interval * (⌊(now - deadline) / interval⌋ + 1)

/-- Counterexample to C1: at a concrete poll that emits a snapshot
(`deadline = 1`, `interval = 1`, `now = 3/2`), the code sets the new
deadline to `now + interval = 5/2`, not to the repeated-addition value
`2` demanded by the claim. -/
theorem step_deadline_counterexample :
    (step ⟨1, 5, 0, 360, 0, 1000, 0, false⟩ ⟨fun _ => 1, fun _ => 0, 3⟩
        (initState ⟨1, 5, 0, 360, 0, 1000, 0, false⟩ 0)
        ⟨false, 15, 0, 100, 3/2⟩).output.length =
      (initState ⟨1, 5, 0, 360, 0, 1000, 0, false⟩ 0).output.length + 1 ∧
    (step ⟨1, 5, 0, 360, 0, 1000, 0, false⟩ ⟨fun _ => 1, fun _ => 0, 3⟩
        (initState ⟨1, 5, 0, 360, 0, 1000, 0, false⟩ 0)
        ⟨false, 15, 0, 100, 3/2⟩).scanTime ≠
      specNextDeadline
        (initState ⟨1, 5, 0, 360, 0, 1000, 0, false⟩ 0).scanTime
        (1 / (1 : ℚ)) (3/2) := by
  norm_num [step, initState, processMeasurement, checkSchedule, transformAngle,
    pymod, inWindow, applyBoundary, mkMeasurement, snapshot, specNextDeadline]

/-- Witness for C1 (amended): the same concrete emitting poll gets its new
deadline set to `now + interval = 3/2 + 1`. -/
theorem step_emission_deadline_witness :
    (step ⟨1, 5, 0, 360, 0, 1000, 0, false⟩ ⟨fun _ => 1, fun _ => 0, 3⟩
        (initState ⟨1, 5, 0, 360, 0, 1000, 0, false⟩ 0)
        ⟨false, 15, 0, 100, 3/2⟩).scanTime = 3/2 + 1 / (1 : ℚ) := by
  have h := step_emission_deadline ⟨1, 5, 0, 360, 0, 1000, 0, false⟩
    ⟨fun _ => 1, fun _ => 0, 3⟩ (initState ⟨1, 5, 0, 360, 0, 1000, 0, false⟩ 0)
    ⟨false, 15, 0, 100, 3/2⟩
    (by norm_num [step, initState, processMeasurement, checkSchedule,
      transformAngle, pymod, inWindow, applyBoundary, mkMeasurement, snapshot])
  exact h

/-- Counterexample to C2: with requested count `number = 1` and measurements
continuing to arrive, the loop emits 2 snapshots before it stops. -/
theorem run_emission_count_counterexample :
    (run ⟨1, 1, 0, 360, 0, 1000, 0, false⟩ ⟨fun _ => 1, fun _ => 0, 3⟩ 0
        [⟨false, 15, 0, 100, 1⟩, ⟨false, 15, 0, 100, 2⟩,
         ⟨false, 15, 0, 100, 5/2⟩]).stopped = true ∧
      (run ⟨1, 1, 0, 360, 0, 1000, 0, false⟩ ⟨fun _ => 1, fun _ => 0, 3⟩ 0
        [⟨false, 15, 0, 100, 1⟩, ⟨false, 15, 0, 100, 2⟩,
         ⟨false, 15, 0, 100, 5/2⟩]).output.length = 2 := by
  norm_num [run, step, initState, processMeasurement, checkSchedule,
    transformAngle, pymod, inWindow, applyBoundary, mkMeasurement, snapshot]

/-- Witness for C2 (amended): the concrete stopped run above emitted
`number + 1 = 2` snapshots. -/
theorem run_stopped_emits_number_plus_one_witness :
    ((run ⟨1, 1, 0, 360, 0, 1000, 0, false⟩ ⟨fun _ => 1, fun _ => 0, 3⟩ 0
        [⟨false, 15, 0, 100, 1⟩, ⟨false, 15, 0, 100, 2⟩,
         ⟨false, 15, 0, 100, 5/2⟩]).output.length : ℤ) = 1 + 1 := by
  have h := run_stopped_emits_number_plus_one ⟨1, 1, 0, 360, 0, 1000, 0, false⟩
    ⟨fun _ => 1, fun _ => 0, 3⟩ 0
    [⟨false, 15, 0, 100, 1⟩, ⟨false, 15, 0, 100, 2⟩, ⟨false, 15, 0, 100, 5/2⟩]
    (by norm_num)
    (by norm_num [run, step, initState, processMeasurement, checkSchedule,
      transformAngle, pymod, inWindow, applyBoundary, mkMeasurement, snapshot])
  exact h

/-- Counterexample to C3: after rotations of lengths 2 and 1 and two further
writes into a buffer of capacity 2, the reachable state has snapshot length
1 while `max(frozen count, write_index) = max 1 2 = 2`. -/
theorem run_snapshot_length_counterexample :
    (snapshot (run ⟨1, 100, 0, 360, 0, 1000, 0, false⟩
        ⟨fun _ => 1, fun _ => 0, 3⟩ 0
        [⟨true, 15, 0, 100, 0⟩, ⟨false, 15, 0, 100, 0⟩, ⟨true, 15, 0, 100, 0⟩,
         ⟨true, 15, 0, 100, 0⟩, ⟨false, 15, 0, 100, 0⟩])).length ≠
      max (run ⟨1, 100, 0, 360, 0, 1000, 0, false⟩
        ⟨fun _ => 1, fun _ => 0, 3⟩ 0
        [⟨true, 15, 0, 100, 0⟩, ⟨false, 15, 0, 100, 0⟩, ⟨true, 15, 0, 100, 0⟩,
         ⟨true, 15, 0, 100, 0⟩, ⟨false, 15, 0, 100, 0⟩]).frozenCount
        (run ⟨1, 100, 0, 360, 0, 1000, 0, false⟩
        ⟨fun _ => 1, fun _ => 0, 3⟩ 0
        [⟨true, 15, 0, 100, 0⟩, ⟨false, 15, 0, 100, 0⟩, ⟨true, 15, 0, 100, 0⟩,
         ⟨true, 15, 0, 100, 0⟩, ⟨false, 15, 0, 100, 0⟩]).measurementIndex := by
  norm_num [run, step, initState, processMeasurement, checkSchedule,
    transformAngle, pymod, inWindow, applyBoundary, mkMeasurement, snapshot]

/-- How the `for` loop of `stream_scans.py` was exited:
normally (requested count reached / stream ended), by `KeyboardInterrupt`
(line 136), or by any other exception (sensor I/O failure, line 138). -/
inductive ExitCause
  | countReached
  | userInterrupt
  | sensorFailure
deriving DecidableEq

/-- The observable shutdown actions of `stream_scans.py` lines 136-145. -/
inductive ShutdownAction
  | printStopMessage
  | printError
  | printCloseBracket
  | stopLidar
  | disconnectLidar
deriving DecidableEq

/-- `stream_scans.py` lines 136-145: the `except`/`finally` structure.
`connected` is whether `lidar is not None` (the `RPLidar` constructor at
line 70 succeeded).  `KeyboardInterrupt` prints a message and falls
through; any other exception prints it and calls `exit(1)`, which raises
`SystemExit` — the `finally` block still runs before the process exits
with status 1.  The `finally` block prints the closing `]` and stops and
disconnects the lidar, in that order.  Returns the ordered action list and
the process exit status. -/
def shutdownTrace (cause : ExitCause) (connected : Bool) :
    List ShutdownAction × ℕ :=
  let handler : List ShutdownAction × ℕ :=
    match cause with
    | .countReached => ([], 0)
    | .userInterrupt => ([.printStopMessage], 0)
    | .sensorFailure => ([.printError], 1)
  let finallyActions : List ShutdownAction :=
    if connected then [.printCloseBracket, .stopLidar, .disconnectLidar]
    else []
  (handler.1 ++ finallyActions, handler.2)

/-- C7: on every exit path of the stream loop — count reached, user
interrupt, or sensor failure — the connection is released (stop and
disconnect) and the output framing is closed before the program stops; an
interrupt exits with status 0 (not a failure) while a sensor failure exits
with status 1. -/
theorem shutdownTrace_releases (cause : ExitCause) (connected : Bool)
    (hc : connected = true) :
    ShutdownAction.printCloseBracket ∈ (shutdownTrace cause connected).1 ∧
      ShutdownAction.stopLidar ∈ (shutdownTrace cause connected).1 ∧
      ShutdownAction.disconnectLidar ∈ (shutdownTrace cause connected).1 ∧
      (cause = ExitCause.countReached → (shutdownTrace cause connected).2 = 0) ∧
      (cause = ExitCause.userInterrupt → (shutdownTrace cause connected).2 = 0) ∧
      (cause = ExitCause.sensorFailure → (shutdownTrace cause connected).2 = 1) := by
  subst hc
  cases cause <;> simp [shutdownTrace]

/-- Witness for C7 at a concrete exit cause (user interrupt, connected). -/
theorem shutdownTrace_releases_witness :
    ShutdownAction.stopLidar ∈ (shutdownTrace ExitCause.userInterrupt true).1 ∧
      (shutdownTrace ExitCause.userInterrupt true).2 = 0 := by
  have h := shutdownTrace_releases ExitCause.userInterrupt true rfl
  exact ⟨h.2.1, h.2.2.2.2.1 rfl⟩

/-- The argument validation of `stream_scans.py` lines 35-55: the list of
help messages accumulated for out-of-range arguments; the program starts
the stream iff this list is empty (lines 57-61). -/
def validateArgs (args : Config) : List String :=
  (if args.rate < 1 then ["-r/--rate: must be >= 1."] else []) ++
  (if args.number < 1 then ["-n/--number: must be >= 1."] else []) ++
  (if args.minDistance < 0 then ["-d/--min_distance must be >= 0"] else []) ++
  (if args.maxDistance ≤ 0 then ["-D/--max_distance must be > 0"] else []) ++
  (if args.minAngle < 0 ∨ args.minAngle > 360 then
    ["-a/--min_angle must be 0 <= min_angle <= 360"] else []) ++
  (if args.maxAngle ≤ 0 ∨ args.maxAngle > 360 then
    ["-A/--max_angle must be 0 < max_angle <= 360"] else []) ++
  (if args.forwardAngle < 0 ∨ args.forwardAngle > 360 then
    ["-f/--forward_angle must be 0 <= forward_angle <= 360"] else [])

/-- Counterexample to C8: the configuration with `min_angle = 300` and
`max_angle = 100` passes validation (empty help list, so the stream
starts), yet `min_angle > max_angle`. -/
theorem validateArgs_accepts_min_gt_max :
    validateArgs ⟨20, 40, 300, 100, 0, 1000, 0, false⟩ = [] ∧
      (300 : ℚ) > 100 := by
  constructor
  · norm_num [validateArgs]
  · norm_num

/-- C8 (amended): validation accepts exactly the configurations with
`rate >= 1`, `number >= 1`, `min_distance >= 0`, `max_distance > 0`,
`0 <= min_angle <= 360`, `0 < max_angle <= 360` and
`0 <= forward_angle <= 360`; it never compares `min_angle` with
`max_angle`, so the core can start with `min_angle > max_angle`. -/
theorem validateArgs_eq_nil_iff (args : Config) :
    validateArgs args = [] ↔
      (1 ≤ args.rate ∧ 1 ≤ args.number ∧ 0 ≤ args.minDistance ∧
        0 < args.maxDistance ∧ (0 ≤ args.minAngle ∧ args.minAngle ≤ 360) ∧
        (0 < args.maxAngle ∧ args.maxAngle ≤ 360) ∧
        (0 ≤ args.forwardAngle ∧ args.forwardAngle ≤ 360)) := by
  unfold validateArgs
  simp only [List.append_eq_nil, ite_eq_right_iff, List.cons_ne_nil, imp_false,
    not_lt, not_or, not_le]
  tauto

end StreamScans

namespace LogLidar

/-- A measurement record as built at `log_lidar_pi.py` lines 96-101, with
keys `distance`, `angle`, `x`, `y`. -/
structure LogMeasurement where
  distance : ℚ
  angle : ℚ
  x : ℚ
  y : ℚ
deriving DecidableEq, Inhabited

/-- `log_lidar_pi.py` lines 41-72, `bisect_right` (cpython) with a `key`
function, as invoked by `insort_right` (the `key is None` branch is dead in
this program): binary search for the insertion point of `x`, comparing
`x < key(a[mid])`.  `lo : ℕ` cannot be negative, so the `ValueError`
branch of line 52 is unreachable; `hi` is passed explicitly
(`hi = len(a)` at the call site, for `hi is None`). -/
def bisect_right {α : Type} [Inhabited α] (a : List α) (x : ℚ) (lo hi : ℕ)
    (key : α → ℚ) : ℕ :=
  if h : lo < hi then
    let mid := (lo + hi) / 2
    if x < key (a.getD mid default) then bisect_right a x lo mid key
    else bisect_right a x (mid + 1) hi key
  else lo
termination_by hi - lo
decreasing_by
  · have hm : (lo + hi) / 2 < hi := by
      rw [Nat.div_lt_iff_lt_mul (by norm_num)]
      omega
    omega
  · have hm : lo ≤ (lo + hi) / 2 := by
      rw [Nat.le_div_iff_mul_le (by norm_num)]
      omega
    omega

/-- `log_lidar_pi.py` lines 27-39, `insort_right` with a `key` function:
`lo = bisect_right(a, key(x), 0, len(a), key)`, then `a.insert(lo, x)`
(which, for `0 ≤ lo ≤ len(a)`, is `a[:lo] ++ [x] ++ a[lo:]`). -/
def insort_right {α : Type} [Inhabited α] (a : List α) (x : α)
    (key : α → ℚ) : List α :=
  let lo := bisect_right a (key x) 0 a.length key
  a.take lo ++ x :: a.drop lo

theorem pairwise_key_le_getElem {α : Type} (key : α → ℚ) (a : List α)
    (h : List.Pairwise (fun m1 m2 => key m1 ≤ key m2) a) (i j : ℕ)
    (hij : i ≤ j) (hi : i < a.length) (hj : j < a.length) :
    key (a[i]) ≤ key (a[j]) := by
  rcases Nat.lt_or_ge i j with hlt | hge
  · exact List.pairwise_iff_getElem.mp h i j hi hj hlt
  · have hij2 : i = j := by omega
    subst hij2
    exact le_refl _

/-- Correctness of `bisect_right` on a key-sorted list: the returned
insertion point `r` lies in `[lo, hi]`, every element before `r` has key
at most `x`, and every element from `r` on has key greater than `x`. -/
theorem bisect_right_spec {α : Type} [Inhabited α] (a : List α) (x : ℚ)
    (lo hi : ℕ) (key : α → ℚ) :
    lo ≤ hi → hi ≤ a.length →
    List.Pairwise (fun m1 m2 => key m1 ≤ key m2) a →
    (∀ i (h2 : i < a.length), i < lo → key (a[i]) ≤ x) →
    (∀ i (h2 : i < a.length), hi ≤ i → x < key (a[i])) →
    lo ≤ bisect_right a x lo hi key ∧
      bisect_right a x lo hi key ≤ hi ∧
      (∀ i (h2 : i < a.length), i < bisect_right a x lo hi key →
        key (a[i]) ≤ x) ∧
      (∀ i (h2 : i < a.length), bisect_right a x lo hi key ≤ i →
        x < key (a[i])) := by
  induction lo, hi, key using bisect_right.induct a x with
  | case1 lo hi key hlt mid hx ih =>
    intro hlohi hhia hsorted hlow hhigh
    have hmid : mid = (lo + hi) / 2 := rfl
    have hmidhi : mid < hi := by
      rw [hmid, Nat.div_lt_iff_lt_mul (by norm_num)]
      omega
    have hlomid : lo ≤ mid := by
      rw [hmid, Nat.le_div_iff_mul_le (by norm_num)]
      omega
    have hmida : mid < a.length := by omega
    have hxe : x < key (a[mid]) := by
      rw [List.getD_eq_getElem a default hmida] at hx
      exact hx
    have harg : ∀ i (h2 : i < a.length), mid ≤ i → x < key (a[i]) := by
      intro i h2 hmi
      calc x < key (a[mid]) := hxe
        _ ≤ key (a[i]) := pairwise_key_le_getElem key a hsorted mid i hmi hmida h2
    have hres := ih (by omega) (by omega) hsorted hlow harg
    rw [hmid] at hres
    rw [bisect_right.eq_def, dif_pos hlt]
    simp only [if_pos hx]
    exact ⟨hres.1, by omega, hres.2.2.1, hres.2.2.2⟩
  | case2 lo hi key hlt mid hx ih =>
    intro hlohi hhia hsorted hlow hhigh
    have hmid : mid = (lo + hi) / 2 := rfl
    have hmidhi : mid < hi := by
      rw [hmid, Nat.div_lt_iff_lt_mul (by norm_num)]
      omega
    have hlomid : lo ≤ mid := by
      rw [hmid, Nat.le_div_iff_mul_le (by norm_num)]
      omega
    have hmida : mid < a.length := by omega
    have hxe : key (a[mid]) ≤ x := by
      rw [List.getD_eq_getElem a default hmida] at hx
      exact not_lt.mp hx
    have harg : ∀ i (h2 : i < a.length), i < mid + 1 → key (a[i]) ≤ x := by
      intro i h2 hmi
      calc key (a[i]) ≤ key (a[mid]) :=
            pairwise_key_le_getElem key a hsorted i mid (by omega) (by omega) hmida
        _ ≤ x := hxe
    have hres := ih (by omega) hhia hsorted harg hhigh
    rw [hmid] at hres
    rw [bisect_right.eq_def, dif_pos hlt]
    simp only [if_neg hx]
    exact ⟨by omega, hres.2.1, hres.2.2.1, hres.2.2.2⟩
  | case3 lo hi key hge =>
    intro hlohi hhia hsorted hlow hhigh
    rw [bisect_right.eq_def, dif_neg hge]
    exact ⟨le_refl lo, by omega, hlow, fun i h2 hle => hhigh i h2 (by omega)⟩

/-- `insort_right` preserves sortedness by the key (the property the
cpython docstring promises and the sorted-output claim rests on). -/
theorem insort_right_pairwise {α : Type} [Inhabited α] (key : α → ℚ)
    (a : List α) (x : α)
    (h : List.Pairwise (fun m1 m2 => key m1 ≤ key m2) a) :
    List.Pairwise (fun m1 m2 => key m1 ≤ key m2) (insort_right a x key) := by
  obtain ⟨hlo1, hlo2, hlow, hhigh⟩ := bisect_right_spec a (key x) 0 a.length
    key (Nat.zero_le _) (le_refl _) h
    (fun i h2 h0 => absurd h0 (Nat.not_lt_zero i))
    (fun i h2 hge => absurd h2 (not_lt.mpr hge))
  simp only [insort_right]
  set lo := bisect_right a (key x) 0 a.length key with hlodef
  refine List.pairwise_append.mpr ⟨h.sublist (List.take_sublist _ _), ?_, ?_⟩
  · rw [List.pairwise_cons]
    refine ⟨?_, h.sublist (List.drop_sublist _ _)⟩
    intro b hb
    obtain ⟨j, hj, hbj⟩ := List.mem_iff_getElem.mp hb
    have hj2 : lo + j < a.length := by
      simp only [List.length_drop] at hj
      omega
    rw [List.getElem_drop a] at hbj
    rw [← hbj]
    exact le_of_lt (hhigh (lo + j) hj2 (by omega))
  · intro p hp b hb
    obtain ⟨i, hi, hpi⟩ := List.mem_iff_getElem.mp hp
    have hi2 : i < lo := by
      simp only [List.length_take] at hi
      omega
    have hia : i < a.length := by omega
    rw [List.getElem_take] at hpi
    have hple : key p ≤ key x := by
      rw [← hpi]
      exact hlow i hia hi2
    rcases List.mem_cons.mp hb with hbx | hbd
    · rw [hbx]
      exact hple
    · obtain ⟨j, hj, hbj⟩ := List.mem_iff_getElem.mp hbd
      have hj2 : lo + j < a.length := by
        simp only [List.length_drop] at hj
        omega
      rw [List.getElem_drop a] at hbj
      rw [← hbj]
      exact hple.trans (le_of_lt (hhigh (lo + j) hj2 (by omega)))

/-- The result of `filter_lidar_scan` (`log_lidar_pi.py` lines 120-134):
the filtered `scan` list plus the farthest and nearest admitted
measurements (`None` when nothing was admitted; the four `far`/`near`
fields of the source are always set together, so they are modelled as one
optional record). -/
structure FilterResult where
  scan : List LogMeasurement
  far : Option LogMeasurement
  near : Option LogMeasurement
deriving DecidableEq

/-- One iteration of the `for (_, angle, distance) in scan` loop of
`log_lidar_pi.py` lines 89-118: window test, Cartesian projection, sorted
insert or append, and farthest/nearest tracking. -/
def filterStep (min_angle max_angle min_distance max_distance : ℚ)
    (sorted : Bool) (piV : ℚ) (cosF sinF : ℚ → ℚ)
    (st : FilterResult) (t : ℚ × ℚ × ℚ) : FilterResult :=
  let angle := t.2.1
  let distance := t.2.2
  if angle ≥ min_angle ∧ angle ≤ max_angle then
    if distance ≥ min_distance ∧ distance ≤ max_distance then
      let radians := angle * piV / 180
      let x := distance * cosF radians
      let y := distance * sinF radians
      let m : LogMeasurement := ⟨distance, angle, x, y⟩
      let filtered :=
        if sorted then insort_right st.scan m (fun mm => mm.angle)
        else st.scan ++ [m]
      let far :=
        match st.far with
        | none => some m
        | some f => if distance > f.distance then some m else st.far
      let near :=
        match st.near with
        | none => some m
        | some f => if distance < f.distance then some m else st.near
      ⟨filtered, far, near⟩
    else st
  else st

/-- `log_lidar_pi.py` lines 76-134, `filter_lidar_scan`: fold the loop body
over the scan's `(quality, angle, distance)` triples, starting from an
empty filtered list and no nearest/farthest. -/
def filter_lidar_scan (scan : List (ℚ × ℚ × ℚ))
    (min_angle max_angle min_distance max_distance : ℚ) (sorted : Bool)
    (piV : ℚ) (cosF sinF : ℚ → ℚ) : FilterResult :=
  scan.foldl
    (filterStep min_angle max_angle min_distance max_distance sorted piV cosF sinF)
    ⟨[], none, none⟩

/-- C10: for every input scan and every filter window, `filter_lidar_scan`
with `sorted = True` returns a `scan` list in nondecreasing order of the
`angle` field. -/
theorem filter_lidar_scan_sorted_by_angle (scan : List (ℚ × ℚ × ℚ))
    (min_angle max_angle min_distance max_distance : ℚ) (piV : ℚ)
    (cosF sinF : ℚ → ℚ) :
    List.Pairwise (fun m1 m2 : LogMeasurement => m1.angle ≤ m2.angle)
      (filter_lidar_scan scan min_angle max_angle min_distance max_distance
        true piV cosF sinF).scan := by
  unfold filter_lidar_scan
  apply StreamScans.foldl_invariant
    (filterStep min_angle max_angle min_distance max_distance true piV cosF sinF)
    (fun st : FilterResult =>
      List.Pairwise (fun m1 m2 : LogMeasurement => m1.angle ≤ m2.angle) st.scan)
  · intro st t hst
    unfold filterStep
    by_cases ha : t.2.1 ≥ min_angle ∧ t.2.1 ≤ max_angle
    · by_cases hd : t.2.2 ≥ min_distance ∧ t.2.2 ≤ max_distance
      · simp only [if_pos ha, if_pos hd, if_true]
        exact insort_right_pairwise (fun mm => mm.angle) st.scan _ hst
      · simp only [if_pos ha, if_neg hd]
        exact hst
    · simp only [if_neg ha]
      exact hst
  · exact List.Pairwise.nil

end LogLidar
